import Mathlib

/-!
Verification development for the core of the bulletinboard DHT node
(`src/kademlia.rs`).  The Kademlia node logic (`put`, `get`, `find`,
`handle_message`, `update_buckets`, `ping_or_replace_with`, `remove`,
`remove_key`) is translated directly from `src/kademlia.rs`.  The
collaborating modules (`kbuckets.rs`, `storage.rs`, `node.rs`,
`message.rs`, `closest_nodes_iter.rs`, `server.rs`) are not part of the
source tree; their data model and operations are modelled from the
specification, as noted on each definition.  Network interaction is
modelled by passing the list of `(peer, message)` pairs that arrive on
an RPC response channel as an explicit argument.
-/

/-- Constant `K_PARAM = 20` from `kademlia.rs`. -/
def K_PARAM : Nat := 20

/-- Constant `ALPHA_PARAM = 3` from `kademlia.rs` (fan-out parallelism; not
observable in the sequential model). -/
def ALPHA_PARAM : Nat := 3

/-- Constant `TIMEOUT_MS = 2000` from `kademlia.rs` (per-request deadline; not
observable in the sequential model). -/
def TIMEOUT_MS : Nat := 2000

/-- Constant `MAX_VALUE_LEN = 2048` from `kademlia.rs`. -/
def MAX_VALUE_LEN : Nat := 2048

/-- Modelled from the spec: `node.rs` is missing.  A `NodeId` / `Key` is a
160-bit opaque identifier; we model it as a list of bytes
(each a `Nat`, compared bitwise via XOR). -/
abbrev NodeId := List Nat

/-- Modelled from the spec: `message.rs` is missing.  A `Cookie` shares the
width of a `NodeId` and is used solely for RPC correlation. -/
abbrev Cookie := List Nat

/-- Modelled from the spec: `node.rs` is missing.  A peer record
`{id, addr, last_seen}`; the transport address is abstracted to a `Nat` and
`last_seen` to a `Nat` timestamp.  Two peers are equal iff their IDs are
equal; all comparisons below use `node_id` only. -/
structure Node where
  addr : Nat
  node_id : NodeId
  last_seen : Nat
deriving DecidableEq, Repr

/-- Modelled from the spec: `message.rs` is missing.  The eight wire shapes
of section 4.D, with the nested payload structs flattened into constructor
arguments.  `timeout` is the synthetic internal sentinel. -/
inductive Message where
  | ping (sender_id : NodeId) (cookie : Cookie)
  | pong (sender_id : NodeId) (cookie : Cookie)
  | find_node (sender_id : NodeId) (cookie : Cookie) (key : NodeId)
  | found_node (sender_id : NodeId) (cookie : Cookie) (nodes : List Node)
  | find_value (sender_id : NodeId) (cookie : Cookie) (key : NodeId)
  | found_value (sender_id : NodeId) (cookie : Cookie) (values : List (List Nat))
  | store (sender_id : NodeId) (cookie : Cookie) (key : NodeId) (value : List Nat)
  | timeout
deriving DecidableEq, Repr

/-- Modelled from the spec: `message.rs` is missing.  Every on-wire message
carries its sender's ID; the `Timeout` sentinel carries none. -/
def Message.senderId : Message → Option NodeId
  | .ping sid _ => some sid
  | .pong sid _ => some sid
  | .find_node sid _ _ => some sid
  | .found_node sid _ _ => some sid
  | .find_value sid _ _ => some sid
  | .found_value sid _ _ => some sid
  | .store sid _ _ _ => some sid
  | .timeout => none

/-- True exactly on `Pong` messages (the discriminating match in
`ping_or_replace_with`). -/
def isPong : Message → Bool
  | .pong _ _ => true
  | _ => false

/-- True on `FoundValue` responses carrying at least one value: exactly the
responses on which `find` decrements its `value_nodes` counter. -/
def isValueBearing : Message → Bool
  | .found_value _ _ (_ :: _) => true
  | _ => false

/-- Number of value-bearing `FoundValue` responses in a response list. -/
def countValueBearing (rs : List (Node × Message)) : Nat :=
  (rs.filter (fun r => isValueBearing r.snd)).length

/-- Rust `Vec::dedup` semantics: remove *consecutive* repeated elements,
keeping one representative per run.  This is what `values.dedup()` does in
`Kademlia::find`; it is not a full deduplication. -/
def dedupConsecutive : List (List Nat) → List (List Nat)
  | [] => []
  | [a] => [a]
  | a :: b :: rest =>
    if a = b then dedupConsecutive (b :: rest)
    else a :: dedupConsecutive (b :: rest)

/-- Big-endian lexicographic strict order on byte strings: the order of the
corresponding unsigned 160-bit integers when lengths agree. -/
def bytesLt : List Nat → List Nat → Bool
  | [], [] => false
  | [], _ :: _ => true
  | _ :: _, [] => false
  | a :: as, b :: bs => if a < b then true else if b < a then false else bytesLt as bs

/-- Bytewise XOR, the Kademlia distance (only its ordering matters). -/
def xorBytes (a b : List Nat) : List Nat := List.zipWith Nat.xor a b

/-- Modelled from the spec: distance comparison used by closest-node
scanning — `d(key, a) ≤ d(key, b)` in the XOR metric. -/
def distLe (key : NodeId) (a b : Node) : Prop :=
  bytesLt (xorBytes key b.node_id) (xorBytes key a.node_id) = false

instance (key : NodeId) : DecidableRel (distLe key) := fun a b =>
  instDecidableEqBool _ _

instance (key : NodeId) : IsTotal Node (distLe key) := by
  constructor
  have asymm : ∀ x y, bytesLt x y = true → bytesLt y x = false := by
    intro x
    induction x with
    | nil =>
      intro y h
      cases y with
      | nil => simp [bytesLt] at h
      | cons c cs => simp [bytesLt]
    | cons xa xs ih =>
      intro y h
      cases y with
      | nil => simp [bytesLt] at h
      | cons ya ys =>
        simp only [bytesLt] at h ⊢
        by_cases h1 : xa < ya
        · simp [h1, Nat.lt_asymm h1]
        · by_cases h2 : ya < xa
          · simp [h1, h2] at h
          · simp only [h1, h2, if_false] at h ⊢
            exact ih ys h
  intro a b
  unfold distLe
  cases h : bytesLt (xorBytes key b.node_id) (xorBytes key a.node_id)
  · exact Or.inl rfl
  · exact Or.inr (asymm _ _ h)

/-- Ordering of peers by `last_seen`, used to probe stalest-first. -/
def lastSeenLe (a b : Node) : Prop := a.last_seen ≤ b.last_seen

instance : DecidableRel lastSeenLe := fun a b => Nat.decLe _ _

instance : IsTotal Node lastSeenLe := ⟨fun a b => Nat.le_total _ _⟩

instance : IsTrans Node lastSeenLe := ⟨fun _ _ _ h h2 => Nat.le_trans h h2⟩

/-- Count of leading zero bits of one byte (values 0–255). -/
def byteLeadingZeros (b : Nat) : Nat :=
  if 128 ≤ b then 0 else if 64 ≤ b then 1 else if 32 ≤ b then 2
  else if 16 ≤ b then 3 else if 8 ≤ b then 4 else if 4 ≤ b then 5
  else if 2 ≤ b then 6 else if 1 ≤ b then 7 else 8

/-- Count of leading zero bits of a byte string. -/
def leadingZeroBits : List Nat → Nat
  | [] => 0
  | b :: rest => if b = 0 then 8 + leadingZeroBits rest else byteLeadingZeros b

/-- Modelled from the spec: `kbuckets.rs` is missing.  Bucket index of a
peer: `160 − 1 − leading_zero_bits(d(own, id))`. -/
def bucketIndex (own id : NodeId) : Nat :=
  159 - leadingZeroBits (xorBytes own id)

/-- Modelled from the spec: `storage.rs` is missing.  The internal (owner)
value store is a map `Key → set of values`, modelled as an association list
with unique keys and duplicate values coalesced. -/
def internalGet (st : List (NodeId × List (List Nat))) (k : NodeId) : List (List Nat) :=
  match st with
  | [] => []
  | (k', vs) :: t => if k' = k then vs else internalGet t k

/-- Modelled from the spec: `storage.rs` is missing.  `InternalStorage::put`
adds a value to the key's set (coalescing duplicates). -/
def internalPut (st : List (NodeId × List (List Nat))) (k : NodeId) (v : List Nat) :
    List (NodeId × List (List Nat)) :=
  match st with
  | [] => [(k, [v])]
  | (k', vs) :: t =>
    if k' = k then (k', if v ∈ vs then vs else vs ++ [v]) :: t
    else (k', vs) :: internalPut t k v

/-- Modelled from the spec: `storage.rs` is missing.  `InternalStorage::remove`
removes one value from the key's set. -/
def internalRemove (st : List (NodeId × List (List Nat))) (k : NodeId) (v : List Nat) :
    List (NodeId × List (List Nat)) :=
  match st with
  | [] => []
  | (k', vs) :: t =>
    if k' = k then (k', vs.filter (fun w => !(w == v))) :: t
    else (k', vs) :: internalRemove t k v

/-- Modelled from the spec: `storage.rs` is missing.
`InternalStorage::remove_key` forgets the whole key. -/
def internalRemoveKey (st : List (NodeId × List (List Nat))) (k : NodeId) :
    List (NodeId × List (List Nat)) :=
  match st with
  | [] => []
  | (k', vs) :: t => if k' = k then t else (k', vs) :: internalRemoveKey t k

/-- Modelled from the spec: `storage.rs` is missing.
`InternalStorage::contains` tests membership of a value in the key's set. -/
def internalContains (st : List (NodeId × List (List Nat))) (k : NodeId) (v : List Nat) : Bool :=
  v ∈ internalGet st k

/-- Modelled from the spec: `storage.rs` is missing.  The external
(remote-contributed) store maps a key to a list of `(value, expiry)` pairs;
`get` returns the values whose expiry has not passed (an entry that has not
been refreshed for more than TTL is not returned). -/
def externalGet (now : Nat) (st : List (NodeId × List (List Nat × Nat))) (k : NodeId) :
    List (List Nat) :=
  match st with
  | [] => []
  | (k', es) :: t =>
    if k' = k then (es.filter (fun e => decide (now ≤ e.snd))).map (fun e => e.fst)
    else externalGet now t k

/-- Modelled from the spec: `storage.rs` is missing.  `ExternalStorage::put`
stamps the value with expiry `now + TTL`, resetting the TTL of an already
present value. -/
def externalPut (ttl now : Nat) (st : List (NodeId × List (List Nat × Nat))) (k : NodeId)
    (v : List Nat) : List (NodeId × List (List Nat × Nat)) :=
  match st with
  | [] => [(k, [(v, now + ttl)])]
  | (k', es) :: t =>
    if k' = k then (k', (es.filter (fun e => !(e.fst == v))) ++ [(v, now + ttl)]) :: t
    else (k', es) :: externalPut ttl now t k v

/-- Modelled from the spec: `closest_nodes_iter.rs` is missing.  The lookup
frontier holds the target, the parameter `K`, and every peer ever inserted,
kept sorted by XOR distance to the target and deduplicated by ID.  (The
pull/visited side of the iterator is subsumed by passing the response list
explicitly.) -/
structure ClosestNodesIter where
  target : NodeId
  k : Nat
  nodes : List Node
deriving DecidableEq, Repr

/-- Insert one peer into a distance-sorted frontier, dropping it when its ID
is already stored. -/
def insertFrontier (target : NodeId) (acc : List Node) (n : Node) : List Node :=
  if acc.any (fun m => m.node_id == n.node_id) then acc
  else List.orderedInsert (distLe target) n acc

/-- Modelled from the spec: `ClosestNodesIter::new(target, K, seeds)`. -/
def ClosestNodesIter.new (target : NodeId) (k : Nat) (seeds : List Node) : ClosestNodesIter :=
  { target := target, k := k,
    nodes := seeds.foldl (fun acc n => insertFrontier target acc n) [] }

/-- Modelled from the spec: `ClosestNodesIter::add_nodes` merges new peers,
dropping IDs already stored. -/
def ClosestNodesIter.addNodes (it : ClosestNodesIter) (ns : List Node) : ClosestNodesIter :=
  { it with nodes := ns.foldl (fun acc n => insertFrontier it.target acc n) it.nodes }

/-- Modelled from the spec: `ClosestNodesIter::get_closest_nodes(n)` returns
the `n` stored peers closest to the target. -/
def ClosestNodesIter.getClosestNodes (it : ClosestNodesIter) (n : Nat) : List Node :=
  it.nodes.take n

/-- State of a Kademlia node: the fields of `struct Kademlia` in
`kademlia.rs`, minus the socket/server handle (network interaction is an
explicit argument) and with the shared-ownership wrappers erased.  The
routing table (`kbuckets.rs`, missing) is modelled from the spec as 160
ordered buckets of at most `K` peers each. -/
structure Kademlia where
  own_id : NodeId
  kbuckets : List (List Node)
  internal_values : List (NodeId × List (List Nat))
  external_values : List (NodeId × List (List Nat × Nat))
  TTL : Nat
deriving DecidableEq, Repr

/-- `Kademlia::get_own_id` (the lock around `own_id` is erased). -/
def Kademlia.get_own_id (s : Kademlia) : NodeId := s.own_id

/-- Modelled from the spec: `KBuckets::get_bucket` — the bucket that would
hold `id`; the local ID has no bucket. -/
def Kademlia.getBucket (s : Kademlia) (id : NodeId) : Option (List Node) :=
  if id = s.own_id then none
  else some (s.kbuckets.getD (bucketIndex s.own_id id) [])

/-- Modelled from the spec: writing back the bucket that holds `id`
(`KBuckets::get_mut_bucket` mutation). -/
def Kademlia.setBucket (s : Kademlia) (id : NodeId) (b : List Node) : Kademlia :=
  { s with kbuckets := s.kbuckets.set (bucketIndex s.own_id id) b }

/-- Modelled from the spec: `KBuckets::get_closest_nodes(key, n)` — up to
`n` peers with smallest XOR distance to `key`, globally across all buckets,
in ascending distance order. -/
def Kademlia.getClosestNodes (s : Kademlia) (key : NodeId) (n : Nat) : List Node :=
  (List.insertionSort (distLe key) s.kbuckets.flatten).take n

/-- Modelled from the spec: `KBuckets::construct_node(addr, id)` — produce a
peer record; fails iff `id` equals the local ID. -/
def Kademlia.construct_node (s : Kademlia) (addr : Nat) (id : NodeId) : Except Unit Node :=
  if id = s.own_id then .error () else .ok { addr := addr, node_id := id, last_seen := 0 }

/-- Modelled from the spec: `KBuckets::add` — if the peer is present by ID,
move it to the tail (with its refreshed record); if the bucket has room,
append at the tail; otherwise fail, returning the candidate. -/
def Kademlia.kbucketsAdd (s : Kademlia) (n : Node) : Except Node Kademlia :=
  match s.getBucket n.node_id with
  | none => .ok s
  | some b =>
    if b.any (fun m => m.node_id == n.node_id) then
      .ok (s.setBucket n.node_id ((b.filter (fun m => !(m.node_id == n.node_id))) ++ [n]))
    else if b.length < K_PARAM then
      .ok (s.setBucket n.node_id (b ++ [n]))
    else
      .error n

/-- Errors raised by `update_buckets` (the `io::Error` values in
`kademlia.rs`, named after section 7 of the spec). -/
inductive KadError where
  | missingSenderId
  | selfIdClaim
  | constructFailed
deriving DecidableEq, Repr

/-- The loop body of `Kademlia::ping_or_replace_with` over the responses
arriving on the `send_many_request` channel (from `kademlia.rs`): the first
non-`Pong` responder still present in the candidate's bucket is removed and
the replacement is pushed at the tail; `Pong` responders and responders that
have left the bucket are skipped. -/
def pingLoop (s : Kademlia) (replacement : Node) : List (Node × Message) → Kademlia
  | [] => s
  | (node, resp) :: rest =>
    match resp with
    | .pong _ _ => pingLoop s replacement rest
    | _ =>
      match s.getBucket replacement.node_id with
      | none => s
      | some bucket =>
        match bucket.findIdx? (fun m => m.node_id == node.node_id) with
        | none => pingLoop s replacement rest
        | some pos => s.setBucket replacement.node_id ((bucket.eraseIdx pos) ++ [replacement])

/-- The bucket snapshot `ping_or_replace_with` probes: the candidate's
target bucket sorted by ascending `last_seen` (from `kademlia.rs`; Rust's
stable `sort_by` is modelled by insertion sort). -/
def Kademlia.probeTargets (s : Kademlia) (replacement : Node) : List Node :=
  List.insertionSort lastSeenLe ((s.getBucket replacement.node_id).getD [])

/-- `Kademlia::ping_or_replace_with` (from `kademlia.rs`): `Ping` is fanned
out to `probeTargets`; `rs` is the list of `(peer, response)` pairs arriving
on the channel. -/
def Kademlia.ping_or_replace_with (s : Kademlia) (replacement : Node)
    (rs : List (Node × Message)) : Kademlia :=
  pingLoop s replacement rs

/-- Tail of `Kademlia::update_buckets` (from `kademlia.rs`) once a sender ID
has been extracted: error if it equals the local ID (ID theft), construct
the peer, refresh its `last_seen`, and add it to the routing table; a full
bucket triggers the eviction probe, whose ping responses are `probeRs`. -/
def Kademlia.updateWithSender (s : Kademlia) (own_id sender_id : NodeId) (src : Nat)
    (now : Nat) (probeRs : List (Node × Message)) : Except KadError Kademlia :=
  if sender_id = own_id then .error .selfIdClaim
  else
    match s.construct_node src sender_id with
    | .error _ => .error .constructFailed
    | .ok sender =>
      let sender := { sender with last_seen := now }
      match s.kbucketsAdd sender with
      | .ok s' => .ok s'
      | .error cand => .ok (s.ping_or_replace_with cand probeRs)

/-- `Kademlia::update_buckets` (from `kademlia.rs`): unless the message is
`Timeout`, extract the sender ID (error if absent) and run the bucket
update with it. -/
def Kademlia.update_buckets (s : Kademlia) (own_id : NodeId) (src : Nat) (msg : Message)
    (now : Nat) (probeRs : List (Node × Message)) : Except KadError Kademlia :=
  match msg with
  | .timeout => .ok s
  | _ =>
    match msg.senderId with
    | none => .error .missingSenderId
    | some sender_id => s.updateWithSender own_id sender_id src now probeRs

/-- View of `Except` as a sum, to transport decidable equality. -/
def exceptToSum {ε α : Type} : Except ε α → Sum ε α
  | .error e => .inl e
  | .ok a => .inr a

instance {ε α : Type} [DecidableEq ε] [DecidableEq α] : DecidableEq (Except ε α) :=
  fun a b =>
    decidable_of_iff (exceptToSum a = exceptToSum b)
      (by cases a <;> cases b <;> simp [exceptToSum])

/-- Result of `Kademlia::handle_message`: the state after the call, the
responses passed to `Server::send_response`, and the `io::Result` value. -/
structure HandleOutcome where
  state : Kademlia
  sent : List (Nat × Message)
  res : Except KadError Unit
deriving DecidableEq, Repr

/-- The list `internal ++ external` a node serves for a key: the
`value_list` built in the `FindValue` arm of `handle_message`. -/
def mergedValues (s : Kademlia) (now : Nat) (key : NodeId) : List (List Nat) :=
  internalGet s.internal_values key ++ externalGet now s.external_values key

/-- `Kademlia::handle_message` (from `kademlia.rs`): run the bucket update,
then branch on the message type.  `now` is the current time and `probeRs`
the environment's responses to a possible eviction probe. -/
def Kademlia.handle_message (s : Kademlia) (src : Nat) (msg : Message) (now : Nat)
    (probeRs : List (Node × Message)) : HandleOutcome :=
  let own_id := s.get_own_id
  match s.update_buckets own_id src msg now probeRs with
  | .error e => ⟨s, [], .error e⟩
  | .ok s1 =>
    match msg with
    | .ping _ cookie => ⟨s1, [(src, .pong own_id cookie)], .ok ()⟩
    | .find_node _ cookie key =>
      ⟨s1, [(src, .found_node own_id cookie (s1.getClosestNodes key K_PARAM))], .ok ()⟩
    | .find_value _ cookie key =>
      let value_list := mergedValues s1 now key
      if 0 < value_list.length then
        ⟨s1, [(src, .found_value own_id cookie value_list)], .ok ()⟩
      else
        ⟨s1, [(src, .found_node own_id cookie (s1.getClosestNodes key K_PARAM))], .ok ()⟩
    | .store _ _ key value =>
      if value.length ≤ MAX_VALUE_LEN then
        ⟨{ s1 with external_values := externalPut s1.TTL now s1.external_values key value },
         [], .ok ()⟩
      else ⟨s1, [], .ok ()⟩
    | _ => ⟨s1, [], .ok ()⟩

/-- The `FindJob` enum of `kademlia.rs`. -/
inductive FindJob where
  | node
  | value
deriving DecidableEq, Repr

/-- The response loop of `Kademlia::find` (from `kademlia.rs`): `FoundNode`
responses feed the frontier (with the local ID filtered out); when the job
is `Value`, a `FoundValue` response decrements `value_nodes` if it carries
any value, appends its values, removes consecutive duplicates, and returns
early when the counter reaches zero; every other response is ignored.  On
exhaustion, a non-empty value list is returned, else the frontier's final
`K` closest peers. -/
def findLoop (own : NodeId) (job : FindJob) (iter : ClosestNodesIter)
    (values : List (List Nat)) (value_nodes : Nat) :
    List (Node × Message) → Except (List Node) (List (List Nat))
  | [] =>
    if 0 < values.length then .ok values
    else .error (iter.getClosestNodes K_PARAM)
  | (_, resp) :: rest =>
    match resp, job with
    | .found_node _ _ nodes, _ =>
      findLoop own job (iter.addNodes (nodes.filter (fun n => !(n.node_id == own))))
        values value_nodes rest
    | .found_value _ _ vs, .value =>
      let value_nodes' := if 0 < vs.length then value_nodes - 1 else value_nodes
      let values' := dedupConsecutive (values ++ vs)
      if value_nodes' = 0 then .ok values'
      else findLoop own job iter values' value_nodes' rest
    | _, _ => findLoop own job iter values value_nodes rest

/-- `Kademlia::find` (from `kademlia.rs`): seed the frontier with the `K`
closest known peers, fan out the request, and run the response loop.  The
`send_many_request` channel is modelled by the explicit `responses` list. -/
def Kademlia.find (s : Kademlia) (job : FindJob) (key : NodeId)
    (responses : List (Node × Message)) : Except (List Node) (List (List Nat)) :=
  let closest := s.getClosestNodes key K_PARAM
  let iter := ClosestNodesIter.new key K_PARAM closest
  findLoop s.own_id job iter [] K_PARAM responses

/-- `Kademlia::find_node` (from `kademlia.rs`): `find(Node, key).unwrap_err()`.
The `none` result models the `unwrap_err` panic on an `Ok` value; it is
proved unreachable. -/
def Kademlia.find_node (s : Kademlia) (key : NodeId) (responses : List (Node × Message)) :
    Option (List Node) :=
  match s.find FindJob.node key responses with
  | .error ns => some ns
  | .ok _ => none

/-- `Kademlia::find_value` (from `kademlia.rs`). -/
def Kademlia.find_value (s : Kademlia) (key : NodeId) (responses : List (Node × Message)) :
    Except (List Node) (List (List Nat)) :=
  s.find FindJob.value key responses

/-- `Kademlia::get` (from `kademlia.rs`): `find_value(key).unwrap_or(vec![])`.
It performs a network lookup only; the node's own stores are never read. -/
def Kademlia.get (s : Kademlia) (key : NodeId) (responses : List (Node × Message)) :
    List (List Nat) :=
  match s.find_value key responses with
  | .ok vs => vs
  | .error _ => []

/-- Result of `Kademlia::put`: the `Result` value, the state after the call,
the `Store` messages passed to `Server::hit_and_run` by the immediate
publish, and whether the republisher task was spawned. -/
structure PutOutcome where
  res : Except (List Nat) Unit
  state : Kademlia
  sent : List (Nat × Message)
  republisherSpawned : Bool
deriving DecidableEq, Repr

/-- `Kademlia::put` (from `kademlia.rs`): reject oversize values, returning
the value; otherwise insert into the internal store, publish a `Store` to
the peers found by `find_node(key)` (whose lookup responses are `findRs`),
and spawn the republisher. -/
def Kademlia.put (s : Kademlia) (key : NodeId) (value : List Nat) (cookie : Cookie)
    (findRs : List (Node × Message)) : PutOutcome :=
  if value.length > MAX_VALUE_LEN then
    ⟨.error value, s, [], false⟩
  else
    let s1 := { s with internal_values := internalPut s.internal_values key value }
    let msg := Message.store s1.get_own_id cookie key value
    let nodes := (s1.find_node key findRs).getD []
    ⟨.ok (), s1, nodes.map (fun n => (n.addr, msg)), true⟩

/-- `Kademlia::remove` (from `kademlia.rs`): remove one value from the
internal store. -/
def Kademlia.remove (s : Kademlia) (key : NodeId) (value : List Nat) : Kademlia :=
  { s with internal_values := internalRemove s.internal_values key value }

/-- `Kademlia::remove_key` (from `kademlia.rs`): remove a whole key from the
internal store. -/
def Kademlia.remove_key (s : Kademlia) (key : NodeId) : Kademlia :=
  { s with internal_values := internalRemoveKey s.internal_values key }

/-- Fold of the `FoundNode` handling of `find` alone: the frontier obtained
after feeding every `FoundNode` response (local ID filtered) into
`add_nodes`, ignoring everything else.  Used to state what `find(Node, ·)`
returns. -/
def finalIterNode (own : NodeId) (iter : ClosestNodesIter) :
    List (Node × Message) → ClosestNodesIter
  | [] => iter
  | (_, Message.found_node _ _ nodes) :: rest =>
    finalIterNode own (iter.addNodes (nodes.filter (fun n => !(n.node_id == own)))) rest
  | _ :: rest => finalIterNode own iter rest

/-- Concrete node state used by witnesses: empty routing table and stores. -/
def s0 : Kademlia :=
  { own_id := [0], kbuckets := List.replicate 160 [], internal_values := [],
    external_values := [], TTL := 900000 }

/-- Concrete peer fixtures for witnesses. -/
def nA : Node := { addr := 5, node_id := [3], last_seen := 3 }

def p1 : Node := { addr := 11, node_id := [10], last_seen := 0 }

def p2 : Node := { addr := 12, node_id := [11], last_seen := 0 }

def p3 : Node := { addr := 13, node_id := [12], last_seen := 0 }

/-- Concrete node state with one unexpired external value, for witnesses. -/
def sE : Kademlia :=
  { own_id := [0], kbuckets := List.replicate 160 [], internal_values := [],
    external_values := [([5], [([9], 100)])], TTL := 900000 }

/-- Concrete replacement candidate whose ID maps to the same bucket as
`nA` (bucket index 153 from local ID `[0]`). -/
def rC : Node := { addr := 9, node_id := [2], last_seen := 50 }

/-- Concrete node state whose bucket 153 holds exactly `nA`. -/
def sC : Kademlia :=
  { own_id := [0], kbuckets := (List.replicate 160 ([] : List Node)).set 153 [nA],
    internal_values := [], external_values := [], TTL := 900000 }

theorem pingLoop_cons (s : Kademlia) (r n : Node) (m : Message) (rest : List (Node × Message)) :
    pingLoop s r ((n, m) :: rest) =
      if isPong m then pingLoop s r rest
      else
        match s.getBucket r.node_id with
        | none => s
        | some bucket =>
          match bucket.findIdx? (fun x => x.node_id == n.node_id) with
          | none => pingLoop s r rest
          | some pos => s.setBucket r.node_id ((bucket.eraseIdx pos) ++ [r]) := by
  cases m <;> rfl

theorem pingLoop_frame (r : Node) : ∀ (rs : List (Node × Message)) (s : Kademlia),
    (pingLoop s r rs).own_id = s.own_id ∧
    (pingLoop s r rs).internal_values = s.internal_values ∧
    (pingLoop s r rs).external_values = s.external_values ∧
    (pingLoop s r rs).TTL = s.TTL := by
  intro rs
  induction rs with
  | nil => intro s; exact ⟨rfl, rfl, rfl, rfl⟩
  | cons a rest ih =>
    intro s
    obtain ⟨n, m⟩ := a
    rw [pingLoop_cons]
    by_cases hm : isPong m = true
    · simpa [hm] using ih s
    · simp only [Bool.not_eq_true] at hm
      simp only [hm, Bool.false_eq_true, if_false]
      cases hb : s.getBucket r.node_id with
      | none => exact ⟨rfl, rfl, rfl, rfl⟩
      | some bucket =>
        dsimp only
        cases hf : bucket.findIdx? (fun x => x.node_id == n.node_id) with
        | none => exact ih s
        | some pos => exact ⟨rfl, rfl, rfl, rfl⟩

theorem kbucketsAdd_ok_frame (s : Kademlia) (n : Node) (s' : Kademlia)
    (h : s.kbucketsAdd n = Except.ok s') :
    s'.own_id = s.own_id ∧ s'.internal_values = s.internal_values ∧
    s'.external_values = s.external_values ∧ s'.TTL = s.TTL := by
  unfold Kademlia.kbucketsAdd at h
  cases hb : s.getBucket n.node_id with
  | none =>
    rw [hb] at h
    cases h
    exact ⟨rfl, rfl, rfl, rfl⟩
  | some b =>
    rw [hb] at h
    by_cases h1 : b.any (fun m => m.node_id == n.node_id) = true
    · simp only [h1, if_true] at h
      cases h
      exact ⟨rfl, rfl, rfl, rfl⟩
    · simp only [Bool.not_eq_true] at h1
      simp only [h1, Bool.false_eq_true, if_false] at h
      by_cases h2 : b.length < K_PARAM
      · simp only [h2, if_true] at h
        cases h
        exact ⟨rfl, rfl, rfl, rfl⟩
      · simp only [h2, if_false] at h
        cases h

theorem updateWithSender_ok_frame (s : Kademlia) (own sid : NodeId) (src now : Nat)
    (prs : List (Node × Message)) (s₂ : Kademlia)
    (h : s.updateWithSender own sid src now prs = Except.ok s₂) :
    s₂.own_id = s.own_id ∧ s₂.internal_values = s.internal_values ∧
    s₂.external_values = s.external_values ∧ s₂.TTL = s.TTL := by
  unfold Kademlia.updateWithSender at h
  by_cases h1 : sid = own
  · simp [h1] at h
  · rw [if_neg h1] at h
    unfold Kademlia.construct_node at h
    by_cases h2 : sid = s.own_id
    · simp [h2] at h
    · rw [if_neg h2] at h
      dsimp only at h
      cases hadd : s.kbucketsAdd { addr := src, node_id := sid, last_seen := now } with
      | ok s' =>
        rw [hadd] at h
        cases h
        exact kbucketsAdd_ok_frame s _ _ hadd
      | error cand =>
        rw [hadd] at h
        cases h
        exact pingLoop_frame cand prs s

theorem updateWithSender_ok (s : Kademlia) (own sid : NodeId) (src now : Nat)
    (prs : List (Node × Message)) (h1 : sid ≠ own) (h2 : sid ≠ s.own_id) :
    ∃ s₂, s.updateWithSender own sid src now prs = Except.ok s₂ := by
  unfold Kademlia.updateWithSender
  rw [if_neg h1]
  unfold Kademlia.construct_node
  rw [if_neg h2]
  dsimp only
  cases hadd : s.kbucketsAdd { addr := src, node_id := sid, last_seen := now } with
  | ok s' => exact ⟨s', rfl⟩
  | error cand => exact ⟨_, rfl⟩

theorem update_buckets_ok_frame (s : Kademlia) (own : NodeId) (src : Nat) (msg : Message)
    (now : Nat) (prs : List (Node × Message)) (s₂ : Kademlia)
    (h : s.update_buckets own src msg now prs = Except.ok s₂) :
    s₂.own_id = s.own_id ∧ s₂.internal_values = s.internal_values ∧
    s₂.external_values = s.external_values ∧ s₂.TTL = s.TTL := by
  cases msg <;> simp only [Kademlia.update_buckets, Message.senderId] at h
  case timeout =>
    cases h
    exact ⟨rfl, rfl, rfl, rfl⟩
  all_goals exact updateWithSender_ok_frame s own _ src now prs s₂ h

theorem findLoop_node_error (own : NodeId) :
    ∀ (rs : List (Node × Message)) (iter : ClosestNodesIter) (vn : Nat),
    findLoop own FindJob.node iter [] vn rs =
      Except.error ((finalIterNode own iter rs).getClosestNodes K_PARAM) := by
  intro rs
  induction rs with
  | nil => intro iter vn; rfl
  | cons a rest ih =>
    intro iter vn
    obtain ⟨n, m⟩ := a
    cases m <;> exact ih _ _

/-- Claim C3 (confirmed): for every key and every response sequence,
`find(FindJob::Node, key)` returns the `Err` arm carrying the frontier's
final `K` closest peers — every `FoundNode` response merged into the
iterator, `FoundValue` responses never counted since the job is `Node`, the
collected value list staying empty — and never returns `Ok`; hence the
`unwrap_err` inside `find_node` (modelled by the `none` arm of
`Kademlia.find_node`) never fires. -/
theorem c3_find_node_always_err (s : Kademlia) (key : NodeId)
    (rs : List (Node × Message)) :
    s.find FindJob.node key rs =
      Except.error ((finalIterNode s.own_id
        (ClosestNodesIter.new key K_PARAM (s.getClosestNodes key K_PARAM))
        rs).getClosestNodes K_PARAM) ∧
    s.find_node key rs = some ((finalIterNode s.own_id
        (ClosestNodesIter.new key K_PARAM (s.getClosestNodes key K_PARAM))
        rs).getClosestNodes K_PARAM) := by
  have h := findLoop_node_error s.own_id rs
    (ClosestNodesIter.new key K_PARAM (s.getClosestNodes key K_PARAM)) K_PARAM
  refine ⟨h, ?_⟩
  unfold Kademlia.find_node
  rw [show s.find FindJob.node key rs = _ from h]

/-- Claim C4 (confirmed): `put` with an oversize value returns the rejected
value in the error arm and has no effect at all: the state (internal store
included) is unchanged, no `Store` message is published, and no republisher
is spawned. -/
theorem c4_put_oversize_rejected (s : Kademlia) (key : NodeId) (value : List Nat)
    (ck : Cookie) (rs : List (Node × Message)) (h : value.length > MAX_VALUE_LEN) :
    s.put key value ck rs = ⟨Except.error value, s, [], false⟩ := by
  unfold Kademlia.put
  rw [if_pos h]

theorem c4_put_oversize_rejected_witness :
    (List.replicate 2049 (0 : Nat)).length > MAX_VALUE_LEN ∧
    Kademlia.put s0 [9] (List.replicate 2049 (0 : Nat)) [] [] =
      ⟨Except.error (List.replicate 2049 (0 : Nat)), s0, [], false⟩ :=
  ⟨by rw [List.length_replicate]; decide, c4_put_oversize_rejected s0 [9] _ [] []
    (by rw [List.length_replicate]; decide)⟩

/-- Claim C7 (confirmed): for non-`Timeout` messages whose sender ID is
absent or equals the local ID, `handle_message` fails with the
`update_buckets` error, leaving the state unchanged and sending nothing;
for `Timeout` the bucket-update step is skipped and succeeds. -/
theorem c7_bucket_update_rejects :
    (∀ (s : Kademlia) (src now : Nat) (prs : List (Node × Message)) (msg : Message),
      msg ≠ Message.timeout →
      (msg.senderId = none ∨ msg.senderId = some s.own_id) →
      ∃ e, s.update_buckets s.own_id src msg now prs = Except.error e ∧
        s.handle_message src msg now prs = ⟨s, [], Except.error e⟩) ∧
    (∀ (s : Kademlia) (own : NodeId) (src now : Nat) (prs : List (Node × Message)),
      s.update_buckets own src Message.timeout now prs = Except.ok s) := by
  constructor
  · intro s src now prs msg hne hsid
    cases msg
    case timeout => exact absurd rfl hne
    all_goals
      rcases hsid with hnone | hown
    all_goals
      first
      | simp [Message.senderId] at hnone
      | · simp only [Message.senderId, Option.some.injEq] at hown
          subst hown
          refine ⟨KadError.selfIdClaim, ?_, ?_⟩
          · simp [Kademlia.update_buckets, Message.senderId, Kademlia.updateWithSender]
          · simp [Kademlia.handle_message, Kademlia.get_own_id, Kademlia.update_buckets,
              Message.senderId, Kademlia.updateWithSender]
  · intro s own src now prs
    rfl

theorem c7_bucket_update_rejects_witness :
    ∃ e, Kademlia.update_buckets s0 s0.own_id 7 (Message.ping [0] [1]) 0 [] =
        Except.error e ∧
      Kademlia.handle_message s0 7 (Message.ping [0] [1]) 0 [] = ⟨s0, [], Except.error e⟩ :=
  c7_bucket_update_rejects.1 s0 7 0 [] (Message.ping [0] [1]) (by decide) (Or.inr rfl)

theorem internalPut_mem : ∀ (st : List (NodeId × List (List Nat))) (k : NodeId)
    (v : List Nat), v ∈ internalGet (internalPut st k v) k := by
  intro st k v
  induction st with
  | nil => simp [internalPut, internalGet]
  | cons a t ih =>
    obtain ⟨k', vs⟩ := a
    by_cases hk : k' = k
    · subst hk
      simp only [internalPut, if_pos rfl, internalGet]
      by_cases hv : v ∈ vs
      · simp [hv]
      · simp [hv]
    · simp [internalPut, hk, internalGet, ih]

/-- Claim C10 (confirmed): `remove` and `remove_key` touch only the internal
store — external store, routing table, and local ID are unchanged — and any
value still unexpired in the external tier stays in the merged list that
`handle_message` serves to `FindValue` requests. -/
theorem c10_remove_frame :
    (∀ (s : Kademlia) (k : NodeId) (v : List Nat),
      (s.remove k v).external_values = s.external_values ∧
      (s.remove k v).kbuckets = s.kbuckets ∧
      (s.remove k v).own_id = s.own_id ∧ (s.remove k v).TTL = s.TTL) ∧
    (∀ (s : Kademlia) (k : NodeId),
      (s.remove_key k).external_values = s.external_values ∧
      (s.remove_key k).kbuckets = s.kbuckets ∧
      (s.remove_key k).own_id = s.own_id ∧ (s.remove_key k).TTL = s.TTL) ∧
    (∀ (s : Kademlia) (k : NodeId) (v : List Nat) (now : Nat) (k₂ : NodeId)
      (w : List Nat), w ∈ externalGet now s.external_values k₂ →
      w ∈ mergedValues (s.remove k v) now k₂ ∧
      w ∈ mergedValues (s.remove_key k) now k₂) := by
  refine ⟨fun s k v => ⟨rfl, rfl, rfl, rfl⟩, fun s k => ⟨rfl, rfl, rfl, rfl⟩, ?_⟩
  intro s k v now k₂ w hw
  constructor
  · unfold mergedValues Kademlia.remove
    exact List.mem_append_right _ hw
  · unfold mergedValues Kademlia.remove_key
    exact List.mem_append_right _ hw

theorem c10_remove_frame_witness :
    ([9] : List Nat) ∈ externalGet 50 sE.external_values [5] ∧
    (([9] : List Nat) ∈ mergedValues (sE.remove [5] [9]) 50 [5] ∧
     ([9] : List Nat) ∈ mergedValues (sE.remove_key [5]) 50 [5]) :=
  ⟨by decide, c10_remove_frame.2.2 sE [5] [9] 50 [5] [9] (by decide)⟩

theorem handle_find_value_spec (s : Kademlia) (src now : Nat)
    (prs : List (Node × Message)) (sid : NodeId) (c : Cookie) (k : NodeId)
    (h : sid ≠ s.own_id) :
    ∃ s₂, s.update_buckets s.own_id src (Message.find_value sid c k) now prs =
        Except.ok s₂ ∧
      mergedValues s₂ now k = mergedValues s now k ∧
      s.handle_message src (Message.find_value sid c k) now prs =
        ⟨s₂, [(src, if 0 < (mergedValues s now k).length
                    then Message.found_value s.own_id c (mergedValues s now k)
                    else Message.found_node s.own_id c (s₂.getClosestNodes k K_PARAM))],
         Except.ok ()⟩ := by
  obtain ⟨s₂, hupd⟩ := updateWithSender_ok s s.own_id sid src now prs h h
  have hub : s.update_buckets s.own_id src (Message.find_value sid c k) now prs =
      Except.ok s₂ := hupd
  obtain ⟨ho, hi, he, ht⟩ := update_buckets_ok_frame s s.own_id src _ now prs s₂ hub
  have hm : mergedValues s₂ now k = mergedValues s now k := by
    unfold mergedValues
    rw [hi, he]
  refine ⟨s₂, hub, hm, ?_⟩
  unfold Kademlia.handle_message
  dsimp only
  have hub' : s.update_buckets s.get_own_id src (Message.find_value sid c k) now prs =
      Except.ok s₂ := hub
  rw [hub']
  dsimp only [Kademlia.get_own_id]
  rw [hm]
  by_cases hc : 0 < (mergedValues s now k).length
  · rw [if_pos hc, if_pos hc]
  · rw [if_neg hc, if_neg hc]

/-- Claim C6 (confirmed): an inbound `FindValue{key, cookie}` from a valid
sender is answered with `FoundValue` carrying the merged internal-then-
external value list when that list is non-empty, and otherwise with
`FoundNode` carrying up to `K` closest peers from the routing table; both
replies echo the request's cookie. -/
theorem c6_find_value_reply (s : Kademlia) (src now : Nat)
    (prs : List (Node × Message)) (sid : NodeId) (c : Cookie) (k : NodeId)
    (h : sid ≠ s.own_id) :
    ∃ s₂, s.update_buckets s.own_id src (Message.find_value sid c k) now prs =
        Except.ok s₂ ∧
      s.handle_message src (Message.find_value sid c k) now prs =
        ⟨s₂, [(src, if 0 < (mergedValues s now k).length
                    then Message.found_value s.own_id c (mergedValues s now k)
                    else Message.found_node s.own_id c (s₂.getClosestNodes k K_PARAM))],
         Except.ok ()⟩ := by
  obtain ⟨s₂, hub, _, hmsg⟩ := handle_find_value_spec s src now prs sid c k h
  exact ⟨s₂, hub, hmsg⟩

theorem c6_find_value_reply_witness :
    ∃ s₂, Kademlia.update_buckets sE sE.own_id 7 (Message.find_value [1] [2] [5]) 50 [] =
        Except.ok s₂ ∧
      Kademlia.handle_message sE 7 (Message.find_value [1] [2] [5]) 50 [] =
        ⟨s₂, [(7, if 0 < (mergedValues sE 50 [5]).length
                  then Message.found_value sE.own_id [2] (mergedValues sE 50 [5])
                  else Message.found_node sE.own_id [2] (s₂.getClosestNodes [5] K_PARAM))],
         Except.ok ()⟩ :=
  c6_find_value_reply sE 7 50 [] [1] [2] [5] (by decide)

/-- Claim C5 (confirmed): an inbound `Store{key, value}` from a valid sender
inserts the value into the external store (stamping a fresh TTL) when its
length is within `MAX_VALUE_LEN`, and is silently dropped otherwise; in
both cases no reply is sent and no error is returned, and the internal
store is untouched. -/
theorem c5_store_inbound (s : Kademlia) (src now : Nat) (prs : List (Node × Message))
    (sid : NodeId) (c : Cookie) (k : NodeId) (v : List Nat) (h : sid ≠ s.own_id) :
    ∃ s₂, s.update_buckets s.own_id src (Message.store sid c k v) now prs =
        Except.ok s₂ ∧
      s₂.internal_values = s.internal_values ∧
      s₂.external_values = s.external_values ∧
      s.handle_message src (Message.store sid c k v) now prs =
        ⟨(if v.length ≤ MAX_VALUE_LEN then
            { s₂ with external_values := externalPut s.TTL now s.external_values k v }
          else s₂), [], Except.ok ()⟩ := by
  obtain ⟨s₂, hupd⟩ := updateWithSender_ok s s.own_id sid src now prs h h
  have hub : s.update_buckets s.own_id src (Message.store sid c k v) now prs =
      Except.ok s₂ := hupd
  obtain ⟨ho, hi, he, ht⟩ := update_buckets_ok_frame s s.own_id src _ now prs s₂ hub
  refine ⟨s₂, hub, hi, he, ?_⟩
  unfold Kademlia.handle_message
  dsimp only
  have hub' : s.update_buckets s.get_own_id src (Message.store sid c k v) now prs =
      Except.ok s₂ := hub
  rw [hub']
  dsimp only
  rw [ht, he]
  by_cases hc : v.length ≤ MAX_VALUE_LEN
  · rw [if_pos hc, if_pos hc]
  · rw [if_neg hc, if_neg hc]

theorem c5_store_inbound_witness :
    ∃ s₂, Kademlia.update_buckets s0 s0.own_id 7 (Message.store [1] [2] [5] [9]) 50 [] =
        Except.ok s₂ ∧
      s₂.internal_values = s0.internal_values ∧
      s₂.external_values = s0.external_values ∧
      Kademlia.handle_message s0 7 (Message.store [1] [2] [5] [9]) 50 [] =
        ⟨(if ([9] : List Nat).length ≤ MAX_VALUE_LEN then
            { s₂ with external_values := externalPut s0.TTL 50 s0.external_values [5] [9] }
          else s₂), [], Except.ok ()⟩ :=
  c5_store_inbound s0 7 50 [] [1] [2] [5] [9] (by decide)

/-- Claim C1 counterexample: on a node with an empty routing table,
`put(k, v)` succeeds (value within bounds), yet `get(k)` on the same node —
which only runs the network lookup `find_value` and never reads the
internal store — returns the empty list, which does not contain `v`. -/
theorem c1_put_get_locality_cex :
    (Kademlia.put s0 [9] [7] [] []).res = Except.ok () ∧
    Kademlia.get (Kademlia.put s0 [9] [7] [] []).state [9] [] = [] ∧
    ([7] : List Nat) ∉ Kademlia.get (Kademlia.put s0 [9] [7] [] []).state [9] [] :=
  ⟨by decide, by decide, by decide⟩

/-- Claim C1 (corrected): after `put(k, v)` succeeds, `v` is in the node's
internal store, and an inbound `FindValue` for `k` from a valid sender is
answered with a `FoundValue` list containing `v`; `get(k)` itself, being a
pure network lookup, need not return `v` (see the counterexample). -/
theorem c1_put_then_served (s : Kademlia) (key : NodeId) (v : List Nat) (ck : Cookie)
    (findRs : List (Node × Message)) (src now : Nat) (prs : List (Node × Message))
    (sid : NodeId) (c : Cookie) (hlen : v.length ≤ MAX_VALUE_LEN)
    (hsid : sid ≠ s.own_id) :
    (s.put key v ck findRs).res = Except.ok () ∧
    v ∈ internalGet (s.put key v ck findRs).state.internal_values key ∧
    ∃ s₂ vs, (s.put key v ck findRs).state.handle_message src
        (Message.find_value sid c key) now prs =
        ⟨s₂, [(src, Message.found_value s.own_id c vs)], Except.ok ()⟩ ∧ v ∈ vs := by
  have hnot : ¬ (v.length > MAX_VALUE_LEN) := not_lt.mpr hlen
  have hstate : (s.put key v ck findRs).state =
      { s with internal_values := internalPut s.internal_values key v } := by
    unfold Kademlia.put
    rw [if_neg hnot]
  refine ⟨?_, ?_, ?_⟩
  · unfold Kademlia.put
    rw [if_neg hnot]
  · rw [hstate]
    exact internalPut_mem s.internal_values key v
  · rw [hstate]
    obtain ⟨s₂, hub, hm, hmsg⟩ := handle_find_value_spec
      { s with internal_values := internalPut s.internal_values key v }
      src now prs sid c key hsid
    have hmerged : v ∈ mergedValues
        { s with internal_values := internalPut s.internal_values key v } now key :=
      List.mem_append_left _ (internalPut_mem s.internal_values key v)
    have hlenpos : 0 < (mergedValues
        { s with internal_values := internalPut s.internal_values key v } now key).length :=
      List.length_pos_of_mem hmerged
    refine ⟨s₂, _, ?_, hmerged⟩
    rw [hmsg, if_pos hlenpos]

theorem c1_put_then_served_witness :
    (Kademlia.put s0 [9] [7] [] []).res = Except.ok () ∧
    ([7] : List Nat) ∈ internalGet (Kademlia.put s0 [9] [7] [] []).state.internal_values [9] ∧
    ∃ s₂ vs, (Kademlia.put s0 [9] [7] [] []).state.handle_message 7
        (Message.find_value [1] [2] [9]) 0 [] =
        ⟨s₂, [(7, Message.found_value s0.own_id [2] vs)], Except.ok ()⟩ ∧
      ([7] : List Nat) ∈ vs :=
  c1_put_then_served s0 [9] [7] [] [] 7 0 [] [1] [2] (by decide) (by decide)

theorem countValueBearing_cons (n : Node) (m : Message) (t : List (Node × Message)) :
    countValueBearing ((n, m) :: t) =
      if isValueBearing m then countValueBearing t + 1 else countValueBearing t := by
  unfold countValueBearing
  rw [List.filter_cons]
  by_cases hm : isValueBearing m = true
  · simp [hm]
  · simp [hm]

theorem findLoop_cons_found_value (own : NodeId) (iter : ClosestNodesIter)
    (values : List (List Nat)) (vn : Nat) (n : Node) (sid : NodeId) (c : Cookie)
    (vs : List (List Nat)) (rest : List (Node × Message)) :
    findLoop own FindJob.value iter values vn
        ((n, Message.found_value sid c vs) :: rest) =
      (if (if 0 < vs.length then vn - 1 else vn) = 0
       then Except.ok (dedupConsecutive (values ++ vs))
       else findLoop own FindJob.value iter (dedupConsecutive (values ++ vs))
         (if 0 < vs.length then vn - 1 else vn) rest) := rfl

theorem findLoop_early (own : NodeId) :
    ∀ (rs₁ : List (Node × Message)) (iter : ClosestNodesIter)
      (values : List (List Nat)) (vn : Nat) (r : Node × Message)
      (rest : List (Node × Message)),
      0 < vn → countValueBearing rs₁ = vn - 1 → isValueBearing r.snd = true →
      (∃ vs, findLoop own FindJob.value iter values vn (rs₁ ++ r :: rest) =
        Except.ok vs) ∧
      findLoop own FindJob.value iter values vn (rs₁ ++ r :: rest) =
        findLoop own FindJob.value iter values vn (rs₁ ++ [r]) := by
  intro rs₁
  induction rs₁ with
  | nil =>
    intro iter values vn r rest hvn hcount hr
    have hc0 : countValueBearing ([] : List (Node × Message)) = 0 := rfl
    have hvn1 : vn = 1 := by omega
    subst hvn1
    obtain ⟨n, m⟩ := r
    cases m
    case found_value sid c vs =>
      cases vs with
      | nil => simp [isValueBearing] at hr
      | cons v vtl =>
        have h1 : (0 : Nat) < (v :: vtl).length := by simp
        constructor
        · refine ⟨dedupConsecutive (values ++ v :: vtl), ?_⟩
          rw [List.nil_append, findLoop_cons_found_value, if_pos h1]
          simp
        · rw [List.nil_append, List.nil_append, findLoop_cons_found_value,
            findLoop_cons_found_value, if_pos h1]
          simp
    all_goals simp [isValueBearing] at hr
  | cons a rs₁' ih =>
    intro iter values vn r rest hvn hcount hr
    obtain ⟨na, ma⟩ := a
    rw [countValueBearing_cons] at hcount
    simp only [List.cons_append]
    cases ma
    case found_node sid c nodes =>
      simp [isValueBearing] at hcount
      exact ih (iter.addNodes (nodes.filter (fun x => !(x.node_id == own))))
        values vn r rest hvn hcount hr
    case found_value sid c vs =>
      cases vs with
      | nil =>
        simp [isValueBearing] at hcount
        have h0 : ¬ ((0 : Nat) < ([] : List (List Nat)).length) := by simp
        have hstep : ∀ l, findLoop own FindJob.value iter values vn
            ((na, Message.found_value sid c []) :: l) =
            findLoop own FindJob.value iter (dedupConsecutive (values ++ [])) vn l := by
          intro l
          rw [findLoop_cons_found_value, if_neg h0, if_neg (by omega)]
        rw [hstep, hstep]
        exact ih iter (dedupConsecutive (values ++ [])) vn r rest hvn hcount hr
      | cons v vtl =>
        simp [isValueBearing] at hcount
        have hvnge : 2 ≤ vn := by omega
        have h1 : (0 : Nat) < (v :: vtl).length := by simp
        have hstep : ∀ l, findLoop own FindJob.value iter values vn
            ((na, Message.found_value sid c (v :: vtl)) :: l) =
            findLoop own FindJob.value iter (dedupConsecutive (values ++ v :: vtl))
              (vn - 1) l := by
          intro l
          rw [findLoop_cons_found_value, if_pos h1, if_neg (by omega)]
        rw [hstep, hstep]
        exact ih iter (dedupConsecutive (values ++ v :: vtl)) (vn - 1) r rest
          (by omega) (by omega) hr
    all_goals
      simp [isValueBearing] at hcount
    all_goals
      exact ih iter values vn r rest hvn hcount hr

/-- Claim C2 counterexample: `find(Value)` terminates early after 20
value-bearing responses even when they all come from one single peer: with
20 `FoundValue{[[1]]}` responses from `p1` followed by a later
`FoundValue{[[2]]}` from `p2`, the lookup returns `[[1]]` — the 21st
response is never processed — although only 2 distinct peers (and only 1
among the counted responses) ever responded with values. -/
theorem c2_distinct_peer_count_cex :
    Kademlia.find s0 FindJob.value [9]
      (List.replicate 20 (p1, Message.found_value [10] [] [[1]]) ++
        [(p2, Message.found_value [11] [] [[2]])]) = Except.ok [[1]] ∧
    ((List.replicate 20 (p1, Message.found_value [10] [] [[1]]) ++
        [(p2, Message.found_value [11] [] [[2]])]).map Prod.fst).dedup.length = 2 :=
  ⟨by decide, by decide⟩

/-- Claim C2 (corrected): the `value_nodes` counter counts value-bearing
`FoundValue` responses regardless of the sending peer: whenever a prefix
`rs₁` contains exactly `K − 1` value-bearing responses and the next
value-bearing response `r` arrives, `find(Value)` returns `Ok` and the
responses after `r` have no effect (early termination at the `K`-th
value-bearing response). -/
theorem c2_early_at_kth_value_response (s : Kademlia) (key : NodeId)
    (rs₁ : List (Node × Message)) (r : Node × Message)
    (rest : List (Node × Message))
    (hcount : countValueBearing rs₁ = K_PARAM - 1)
    (hr : isValueBearing r.snd = true) :
    (∃ vs, s.find FindJob.value key (rs₁ ++ r :: rest) = Except.ok vs) ∧
    s.find FindJob.value key (rs₁ ++ r :: rest) =
      s.find FindJob.value key (rs₁ ++ [r]) :=
  findLoop_early s.own_id rs₁
    (ClosestNodesIter.new key K_PARAM (s.getClosestNodes key K_PARAM))
    [] K_PARAM r rest (by decide) hcount hr

theorem c2_early_at_kth_value_response_witness :
    countValueBearing (List.replicate 19 (p1, Message.found_value [10] [] [[1]])) =
      K_PARAM - 1 ∧
    ((∃ vs, Kademlia.find s0 FindJob.value [9]
        (List.replicate 19 (p1, Message.found_value [10] [] [[1]]) ++
          (p1, Message.found_value [10] [] [[2]]) ::
            [(p2, Message.found_value [11] [] [[3]])]) = Except.ok vs) ∧
      Kademlia.find s0 FindJob.value [9]
        (List.replicate 19 (p1, Message.found_value [10] [] [[1]]) ++
          (p1, Message.found_value [10] [] [[2]]) ::
            [(p2, Message.found_value [11] [] [[3]])]) =
        Kademlia.find s0 FindJob.value [9]
          (List.replicate 19 (p1, Message.found_value [10] [] [[1]]) ++
            [(p1, Message.found_value [10] [] [[2]])])) :=
  ⟨by decide, c2_early_at_kth_value_response s0 [9] _ _ _ (by decide) (by decide)⟩

theorem dedupConsecutive_cons_head : ∀ (l : List (List Nat)) (a : List Nat),
    ∃ t, dedupConsecutive (a :: l) = a :: t := by
  intro l
  induction l with
  | nil => intro a; exact ⟨[], rfl⟩
  | cons b r ih =>
    intro a
    by_cases hab : a = b
    · subst hab
      simp only [dedupConsecutive, if_pos rfl]
      exact ih a
    · exact ⟨dedupConsecutive (b :: r), by simp [dedupConsecutive, hab]⟩

theorem chain_ne_dedupConsecutive : ∀ (l : List (List Nat)),
    List.Chain' (fun a b => a ≠ b) (dedupConsecutive l) := by
  intro l
  induction l with
  | nil => simp [dedupConsecutive]
  | cons a t ih =>
    cases t with
    | nil => simp [dedupConsecutive]
    | cons b r =>
      by_cases hab : a = b
      · subst hab
        simpa only [dedupConsecutive, if_pos rfl] using ih
      · obtain ⟨t', ht'⟩ := dedupConsecutive_cons_head r b
        simp only [dedupConsecutive, if_neg hab]
        rw [ht'] at ih ⊢
        exact List.chain'_cons.mpr ⟨hab, ih⟩

theorem findLoop_ok_chain (own : NodeId) (job : FindJob) :
    ∀ (rs : List (Node × Message)) (iter : ClosestNodesIter)
      (values : List (List Nat)) (vn : Nat) (vs : List (List Nat)),
      List.Chain' (fun a b => a ≠ b) values →
      findLoop own job iter values vn rs = Except.ok vs →
      List.Chain' (fun a b => a ≠ b) vs := by
  intro rs
  induction rs with
  | nil =>
    intro iter values vn vs hch h
    by_cases hl : 0 < values.length
    · unfold findLoop at h
      rw [if_pos hl] at h
      cases h
      exact hch
    · unfold findLoop at h
      rw [if_neg hl] at h
      cases h
  | cons a rest ih =>
    intro iter values vn vs hch h
    obtain ⟨n, m⟩ := a
    cases job
    case node =>
      cases m <;> exact ih _ _ _ _ hch h
    case value =>
      cases m
      case found_value sid c vsr =>
        have hch' : List.Chain' (fun a b => a ≠ b)
            (dedupConsecutive (values ++ vsr)) := chain_ne_dedupConsecutive _
        rw [findLoop_cons_found_value] at h
        by_cases h0 : (if 0 < vsr.length then vn - 1 else vn) = 0
        · rw [if_pos h0] at h
          cases h
          exact hch'
        · rw [if_neg h0] at h
          exact ih iter _ _ vs hch' h
      all_goals exact ih _ _ _ _ hch h

/-- Claim C9 counterexample: three `FoundValue` responses carrying `[1]`,
`[2]`, `[1]` make `find(Value)` (and hence `get`) return `[[1], [2], [1]]`:
`Vec::dedup` removes only consecutive duplicates, so the same byte string
appears twice and the result is not duplicate-free. -/
theorem c9_no_duplicates_cex :
    Kademlia.find s0 FindJob.value [9]
      [(p1, Message.found_value [10] [] [[1]]),
       (p2, Message.found_value [11] [] [[2]]),
       (p3, Message.found_value [12] [] [[1]])] = Except.ok [[1], [2], [1]] ∧
    ¬ ([[1], [2], [1]] : List (List Nat)).Nodup :=
  ⟨by decide, by decide⟩

/-- Claim C9 (corrected): the value list returned by `find(Value)` never
contains two *adjacent* equal byte strings — the guarantee `values.dedup()`
actually gives; equal values arriving non-adjacently survive as duplicates
(see the counterexample), so the list is not duplicate-free in general. -/
theorem c9_values_adjacent_distinct (s : Kademlia) (key : NodeId)
    (rs : List (Node × Message)) (vs : List (List Nat))
    (h : s.find FindJob.value key rs = Except.ok vs) :
    List.Chain' (fun a b => a ≠ b) vs :=
  findLoop_ok_chain s.own_id FindJob.value rs
    (ClosestNodesIter.new key K_PARAM (s.getClosestNodes key K_PARAM))
    [] K_PARAM vs List.chain'_nil h

theorem c9_values_adjacent_distinct_witness :
    List.Chain' (fun a b => a ≠ b) ([[1], [2], [1]] : List (List Nat)) :=
  c9_values_adjacent_distinct s0 [9]
    [(p1, Message.found_value [10] [] [[1]]),
     (p2, Message.found_value [11] [] [[2]]),
     (p3, Message.found_value [12] [] [[1]])] [[1], [2], [1]] (by decide)

/-- Claim C8 (confirmed): `ping_or_replace_with(candidate)` probes the
candidate's bucket as a snapshot sorted by ascending `last_seen` (a sorted
permutation of the bucket); if every probed peer answers `Pong` the state —
in particular the bucket — is unchanged and the candidate is discarded;
for the first responder whose response is not a `Pong` (still present in
the bucket), that peer is removed and the candidate is appended at the
bucket's tail, and the remaining responses are ignored (the result does not
depend on them). -/
theorem c8_eviction_probe (s : Kademlia) (r : Node) (b : List Node)
    (hb : s.getBucket r.node_id = some b) :
    (List.Perm (s.probeTargets r) b ∧
      List.Sorted lastSeenLe (s.probeTargets r)) ∧
    (∀ rs : List (Node × Message), (∀ p ∈ rs, isPong p.snd = true) →
      s.ping_or_replace_with r rs = s) ∧
    (∀ (rs₁ : List (Node × Message)) (n : Node) (m : Message)
      (rs₂ : List (Node × Message)) (pos : Nat),
      (∀ p ∈ rs₁, isPong p.snd = true) → isPong m = false →
      b.findIdx? (fun x => x.node_id == n.node_id) = some pos →
      s.ping_or_replace_with r (rs₁ ++ (n, m) :: rs₂) =
        s.setBucket r.node_id (b.eraseIdx pos ++ [r])) := by
  refine ⟨?_, ?_, ?_⟩
  · unfold Kademlia.probeTargets
    rw [hb]
    exact ⟨List.perm_insertionSort lastSeenLe b, List.sorted_insertionSort lastSeenLe b⟩
  · intro rs
    unfold Kademlia.ping_or_replace_with
    induction rs with
    | nil => intro hp; rfl
    | cons a t ihp =>
      intro hp
      obtain ⟨n, m⟩ := a
      rw [pingLoop_cons, if_pos (hp (n, m) (List.mem_cons_self _ _))]
      exact ihp (fun p hp' => hp p (List.mem_cons_of_mem _ hp'))
  · intro rs₁
    unfold Kademlia.ping_or_replace_with
    induction rs₁ with
    | nil =>
      intro n m rs₂ pos hp hm hidx
      rw [List.nil_append, pingLoop_cons, if_neg (by simp [hm]), hb]
      dsimp only
      rw [hidx]
    | cons a t ihp =>
      intro n m rs₂ pos hp hm hidx
      obtain ⟨na, ma⟩ := a
      rw [List.cons_append, pingLoop_cons,
        if_pos (hp (na, ma) (List.mem_cons_self _ _))]
      exact ihp n m rs₂ pos (fun p hp' => hp p (List.mem_cons_of_mem _ hp')) hm hidx

theorem c8_eviction_probe_witness :
    (List.Perm (sC.probeTargets rC) [nA] ∧
      List.Sorted lastSeenLe (sC.probeTargets rC)) ∧
    (∀ rs : List (Node × Message), (∀ p ∈ rs, isPong p.snd = true) →
      sC.ping_or_replace_with rC rs = sC) ∧
    (∀ (rs₁ : List (Node × Message)) (n : Node) (m : Message)
      (rs₂ : List (Node × Message)) (pos : Nat),
      (∀ p ∈ rs₁, isPong p.snd = true) → isPong m = false →
      ([nA] : List Node).findIdx? (fun x => x.node_id == n.node_id) = some pos →
      sC.ping_or_replace_with rC (rs₁ ++ (n, m) :: rs₂) =
        sC.setBucket rC.node_id (([nA] : List Node).eraseIdx pos ++ [rC])) :=
  c8_eviction_probe sC rC [nA] (by decide)
